import Mathlib

/-!
Verification of the encoded-state tic-tac-toe engine of the `podplaytest`
repository (`src/api/index.tsx`, `/game` route variant carrying a `difficulty`
field, lines 1101-1380; the sibling copies in `src/unnamed/part_000` and
`src/unnamed/part_001` contain the same `checkWin`/`getBestMove`/codec code).

The TypeScript source is shallowly embedded as follows:

* a board cell (`'O' | 'X' | null` as actually produced by the program) is
  `Option Player`; a board is a `List` of cells, JavaScript array indexing
  `board[i]` (which yields `undefined`, falsy like `null`, out of range) is
  `List.getD i none`;
* `Math.random()`-driven branches are made explicit through a `Rand` record
  holding the outcome of every random draw `getBestMove` can consume
  (`Math.random() < 0.2` as a `Bool`, `Math.floor(Math.random() * len)` as a
  `Nat` reduced modulo the list length, `Math.random() < 0.7` as a `Bool`);
* the in-place mutation of `board` performed by `getBestMove`'s two
  hypothetical-move loops is modelled by explicit state passing: the loop
  returns both the selected index and the final contents of the array, so
  that the restore-before-return behaviour of the source is a provable
  statement rather than a notational accident;
* a JavaScript value of type `number | undefined` is `Option Nat`
  (`none` = `undefined`), and a computation that can throw is `Except Unit`.
-/

namespace PodPlay

/-- The two marks that the program ever stores in a cell
(`'O'` human, `'X'` computer). -/
inductive Player where
  | O : Player
  | X : Player
deriving DecidableEq, Repr

/-- A board cell: `none` is JavaScript `null`, `some m` the mark `m`. -/
abbrev Cell := Option Player

/-- A board: the `(string | null)[]` array of the source, restricted to the
values the program actually stores. -/
abbrev Board := List Cell

/-- JavaScript `board[i]`: the element when `i` is in range, otherwise
`undefined`, which every comparison in the source treats like `null`. -/
def cellNth (board : Board) (i : Nat) : Cell := board.getD i none

/-- The eight `winPatterns` triples of `checkWin`
(`src/api/index.tsx` lines 1102-1106). -/
def winPatterns : List (Nat × Nat × Nat) :=
  [(0, 1, 2), (3, 4, 5), (6, 7, 8),
   (0, 3, 6), (1, 4, 7), (2, 5, 8),
   (0, 4, 8), (2, 4, 6)]

/-- `checkWin` (`src/api/index.tsx` lines 1101-1113):
`winPatterns.some(pattern => board[p0] && board[p0] === board[p1] &&
board[p0] === board[p2])`.  The truthiness test `board[p0]` is `Option.isSome`
and `===` is decidable equality of cells. -/
def checkWin (board : Board) : Bool :=
  winPatterns.any fun p =>
    (cellNth board p.1).isSome
      && decide (cellNth board p.1 = cellNth board p.2.1)
      && decide (cellNth board p.1 = cellNth board p.2.2)

/-- Spec-side win predicate, written from the words of the specification:
"true iff any of the 8 fixed triples (3 rows, 3 columns, 2 diagonals) holds
three identical non-empty marks". -/
def specWin (board : Board) : Prop :=
  ∃ t ∈ ([(0, 1, 2), (3, 4, 5), (6, 7, 8),
          (0, 3, 6), (1, 4, 7), (2, 5, 8),
          (0, 4, 8), (2, 4, 6)] : List (Nat × Nat × Nat)),
    ∃ m : Player,
      cellNth board t.1 = some m ∧
      cellNth board t.2.1 = some m ∧
      cellNth board t.2.2 = some m

theorem tripleWin_iff (board : Board) (i j k : Nat) :
    ((cellNth board i).isSome
      && decide (cellNth board i = cellNth board j)
      && decide (cellNth board i = cellNth board k)) = true
      ↔ ∃ m : Player, cellNth board i = some m ∧
          cellNth board j = some m ∧ cellNth board k = some m := by
  cases h : cellNth board i with
  | none => simp [h]
  | some m =>
    simp only [h, Option.isSome_some, Bool.true_and, Bool.and_eq_true,
      decide_eq_true_eq]
    constructor
    · rintro ⟨h1, h2⟩
      exact ⟨m, rfl, h1.symm, h2.symm⟩
    · rintro ⟨m2, hm, h1, h2⟩
      cases hm
      exact ⟨h1.symm, h2.symm⟩

/-- **C2.** Win detection: for every board of 9 cells, `checkWin board`
returns `true` if and only if at least one of the 8 fixed triples
(rows `(0,1,2) (3,4,5) (6,7,8)`, columns `(0,3,6) (1,4,7) (2,5,8)`,
diagonals `(0,4,8) (2,4,6)`) holds three identical non-empty marks;
in particular a triple of empty cells never counts as a win, since the
witnessing mark `m` is required to actually occupy the three cells. -/
theorem checkWin_iff_specWin (board : Board) (_h9 : board.length = 9) :
    checkWin board = true ↔ specWin board := by
  unfold checkWin specWin winPatterns
  rw [List.any_eq_true]
  constructor
  · rintro ⟨p, hp, hpred⟩
    exact ⟨p, hp, (tripleWin_iff board p.1 p.2.1 p.2.2).mp hpred⟩
  · rintro ⟨p, hp, hm⟩
    exact ⟨p, hp, (tripleWin_iff board p.1 p.2.1 p.2.2).mpr hm⟩

/-- Witness for C2 on a concrete 9-cell board: the top row holds three
`'O'` marks, and `checkWin` detects the win. -/
theorem checkWin_iff_specWin_witness :
    ([some Player.O, some Player.O, some Player.O,
      some Player.X, some Player.X, none, none, none, none] : Board).length = 9
    ∧ (checkWin [some Player.O, some Player.O, some Player.O,
        some Player.X, some Player.X, none, none, none, none] = true
      ↔ specWin [some Player.O, some Player.O, some Player.O,
        some Player.X, some Player.X, none, none, none, none]) :=
  ⟨by decide,
   checkWin_iff_specWin
     [some Player.O, some Player.O, some Player.O,
      some Player.X, some Player.X, none, none, none, none] (by decide)⟩

/-! ### The opponent policy `getBestMove` -/

/-- One record of the outcomes of the random draws `getBestMove` may consume:
`mistake` is `Math.random() < 0.2` of line 1119, `mistakeChoice` /
`openingChoice` / `fallbackChoice` are the `Math.floor(Math.random() * len)`
indices of lines 1124, 1132 and 1163 (reduced modulo the length of the list
being indexed, which is exactly the set of values `Math.floor(Math.random()
* len)` ranges over), and `centerTake` is `Math.random() < 0.7` of
line 1157. -/
structure Rand where
  mistake : Bool
  mistakeChoice : Nat
  openingChoice : Nat
  centerTake : Bool
  fallbackChoice : Nat

/-- `board.reduce((acc, cell, index) => { if (cell === null) acc.push(index);
return acc }, [])`: the list of indices of empty cells, in ascending order. -/
def availableMoves (board : Board) : List Nat :=
  (List.range board.length).filter fun i => decide (cellNth board i = none)

/-- JavaScript `moves[Math.floor(Math.random() * moves.length)]`: a random
in-range index when the array is non-empty, `undefined` (`none`) when it is
empty (indexing past the end of an empty array). -/
def jsPick (moves : List Nat) (k : Nat) : Option Nat :=
  moves.get? (k % moves.length)

/-- `board.filter(cell => cell !== null).length`: the number of non-empty
cells (line 1127). -/
def countMarks (board : Board) : Nat :=
  (board.filter fun c => c.isSome).length

/-- `const opponent = player === 'X' ? 'O' : 'X'` (line 1117). -/
def jsOpponent (player : Player) : Player :=
  match player with
  | Player.X => Player.O
  | Player.O => Player.X

/-- One hypothetical-move loop of `getBestMove` (lines 1135-1144 and
1146-1155), with the in-place mutation of `board` made explicit: for each
index `i` in turn, if `board[i] === null` the loop writes `mark` into the
cell, calls `checkWin`, writes `null` back, and returns `i` on a win.  The
result carries both the selected index (if any) and the final contents of
the array. -/
def tryMarksOn (mark : Player) : List Nat → Board → Option Nat × Board
  | [], b => (none, b)
  | i :: is, b =>
    if cellNth b i = none then
      let b1 := b.set i (some mark)
      if checkWin b1 then (some i, b1.set i none)
      else tryMarksOn mark is (b1.set i none)
    else tryMarksOn mark is b

/-- The tactical tail of `getBestMove` (lines 1135-1163): immediate win,
immediate block, center preference, random fallback.  The board component
of the result is the final contents of the (mutated and restored) array. -/
def tacticalMove (rand : Rand) (board : Board) (player : Player) :
    Option Nat × Board :=
  match tryMarksOn player (List.range 9) board with
  | (some i, b1) => (some i, b1)
  | (none, b1) =>
    match tryMarksOn (jsOpponent player) (List.range 9) b1 with
    | (some i, b2) => (some i, b2)
    | (none, b2) =>
      if cellNth b2 4 = none && rand.centerTake then (some 4, b2)
      else (jsPick (availableMoves b2) rand.fallbackChoice, b2)

/-- `getBestMove` (`src/api/index.tsx` lines 1116-1164).  The first
component of the result is the returned value (`none` models the JavaScript
`undefined` produced by indexing an empty `availableMoves` array), the
second the final contents of the `board` argument. -/
def getBestMove (rand : Rand) (board : Board) (player : Player) :
    Option Nat × Board :=
  if rand.mistake then
    (jsPick (availableMoves board) rand.mistakeChoice, board)
  else if countMarks board = 1 then
    (jsPick (availableMoves board) rand.openingChoice, board)
  else
    tacticalMove rand board player

/-- Which of the three top-level branches of `getBestMove` runs, decided by
the same guards as the source: the random-mistake branch (line 1119), the
opening-randomization branch (line 1127), or the tactical tail. -/
inductive PolicyBranch where
  | mistake : PolicyBranch
  | opening : PolicyBranch
  | tactical : PolicyBranch
deriving DecidableEq

/-- The branch `getBestMove` takes on a given draw record and board. -/
def chosenBranch (rand : Rand) (board : Board) : PolicyBranch :=
  if rand.mistake then PolicyBranch.mistake
  else if countMarks board = 1 then PolicyBranch.opening
  else PolicyBranch.tactical

/-! ### Restoration and first-match characterisation of the loops -/

theorem set_none_of_cellNth_none (b : Board) (i : Nat)
    (h : cellNth b i = none) : b.set i none = b := by
  induction b generalizing i with
  | nil => simp
  | cons c cs ih =>
    cases i with
    | zero =>
      have hc : c = none := by
        simpa [cellNth, List.getD_cons_zero] using h
      simp [List.set, hc]
    | succ n =>
      simp only [List.set]
      rw [ih n (by simpa [cellNth, List.getD_cons_succ] using h)]

/-- The hypothetical-move loop restores the board: whatever it returns, the
final contents of the array equal the initial contents. -/
theorem tryMarksOn_board (mark : Player) (is : List Nat) (b : Board) :
    (tryMarksOn mark is b).2 = b := by
  induction is generalizing b with
  | nil => rfl
  | cons i is ih =>
    by_cases h : cellNth b i = none
    · have hrestore : (b.set i (some mark)).set i none = b := by
        rw [List.set_set]
        exact set_none_of_cellNth_none b i h
      by_cases hw : checkWin (b.set i (some mark)) = true
      · simp [tryMarksOn, h, hw, hrestore]
      · simp only [tryMarksOn, if_pos h, Bool.not_eq_true] at *
        rw [if_neg (by simp [hw]), hrestore, ih]
    · simp only [tryMarksOn, if_neg h]
      exact ih b

/-- The index the hypothetical-move loop returns is the first index of the
list whose cell is empty and where placing `mark` produces a `checkWin`. -/
theorem tryMarksOn_fst (mark : Player) (is : List Nat) (b : Board) :
    (tryMarksOn mark is b).1 =
      is.find? fun i =>
        decide (cellNth b i = none) && checkWin (b.set i (some mark)) := by
  induction is generalizing b with
  | nil => rfl
  | cons i is ih =>
    by_cases h : cellNth b i = none
    · have hrestore : (b.set i (some mark)).set i none = b := by
        rw [List.set_set]
        exact set_none_of_cellNth_none b i h
      by_cases hw : checkWin (b.set i (some mark)) = true
    -- first-match case: the loop returns i and find? selects i
      · rw [List.find?_cons_of_pos _ (by simp [h, hw])]
        simp [tryMarksOn, h, hw]
      · rw [List.find?_cons_of_neg _ (by simp [h, hw])]
        simp only [tryMarksOn, if_pos h]
        rw [if_neg (by simp [hw]), hrestore]
        exact ih b
    · rw [List.find?_cons_of_neg _ (by simp [h])]
      simp only [tryMarksOn, if_neg h]
      exact ih b

/-- The tactical tail restores the board it was handed. -/
theorem tacticalMove_board (rand : Rand) (board : Board) (player : Player) :
    (tacticalMove rand board player).2 = board := by
  unfold tacticalMove
  rcases e1 : tryMarksOn player (List.range 9) board with ⟨w1, b1⟩
  have hb1 : b1 = board := by
    have h := tryMarksOn_board player (List.range 9) board
    rw [e1] at h
    exact h
  rw [hb1]
  cases w1 with
  | some i => rfl
  | none =>
    dsimp only
    rcases e2 : tryMarksOn (jsOpponent player) (List.range 9) board
      with ⟨w2, b2⟩
    have hb2 : b2 = board := by
      have h := tryMarksOn_board (jsOpponent player) (List.range 9) board
      rw [e2] at h
      exact h
    rw [hb2]
    cases w2 with
    | some i => rfl
    | none =>
      simp only
      split
      · rfl
      · rfl

/-- `getBestMove` always hands back the array contents it was given. -/
theorem getBestMove_board_eq (rand : Rand) (board : Board)
    (player : Player) : (getBestMove rand board player).2 = board := by
  unfold getBestMove
  split
  · rfl
  · split
    · rfl
    · exact tacticalMove_board rand board player

/-- **C9.** Frame property of the policy: for every board with at least one
empty cell and every player mark, the final contents of the board argument
after `getBestMove` returns equal its initial contents in every cell — the
hypothetical placements of the win and block searches are always undone. -/
theorem getBestMove_preserves_board (rand : Rand) (board : Board)
    (player : Player) (_hne : availableMoves board ≠ []) :
    (getBestMove rand board player).2 = board :=
  getBestMove_board_eq rand board player

/-- Witness for C9 on a concrete board with an empty cell. -/
theorem getBestMove_preserves_board_witness :
    (availableMoves [some Player.O, none, none, none, none, none, none,
        none, none] ≠ []) ∧
      (getBestMove ⟨false, 0, 0, false, 0⟩
        [some Player.O, none, none, none, none, none, none, none, none]
        Player.X).2 =
      [some Player.O, none, none, none, none, none, none, none, none] :=
  ⟨by decide,
   getBestMove_preserves_board ⟨false, 0, 0, false, 0⟩
     [some Player.O, none, none, none, none, none, none, none, none]
     Player.X (by decide)⟩

/-! ### First-match search on index ranges -/

theorem find?_range'_eq_some (p : Nat → Bool) (i : Nat) :
    ∀ (s n : Nat), s ≤ i → i < s + n → p i = true →
      (∀ j, s ≤ j → j < i → p j = false) →
      (List.range' s n).find? p = some i := by
  intro s n
  induction n generalizing s with
  | zero =>
    intro h1 h2 _ _
    omega
  | succ n ih =>
    intro h1 h2 hp hmin
    rw [List.range'_succ]
    by_cases hs : s = i
    · subst hs
      exact List.find?_cons_of_pos _ hp
    · rw [List.find?_cons_of_neg _ (by simp [hmin s le_rfl (by omega)])]
      exact ih (s + 1) (by omega) (by omega) hp
        fun j hj1 hj2 => hmin j (by omega) hj2

theorem find?_range_eq_some (p : Nat → Bool) (i n : Nat)
    (h2 : i < n) (hp : p i = true) (hmin : ∀ j < i, p j = false) :
    (List.range n).find? p = some i := by
  rw [List.range_eq_range']
  exact find?_range'_eq_some p i 0 n (Nat.zero_le i) (by omega) hp
    fun j _ hj => hmin j hj

/-- Placing `mark` at `i` is a winning hypothetical move: the index is on the
board, the cell is empty, and `checkWin` reports a win after the placement. -/
def winAt (board : Board) (mark : Player) (i : Nat) : Prop :=
  i < 9 ∧ cellNth board i = none ∧ checkWin (board.set i (some mark)) = true

instance (board : Board) (mark : Player) (i : Nat) :
    Decidable (winAt board mark i) := by
  unfold winAt
  infer_instance

/-- **C5.** Immediate win is never missed: when the random mistake branch
does not trigger and the number of non-empty cells is not exactly one, if
some empty cell `i` gives `player` an immediate `checkWin`, then
`getBestMove` returns the smallest such index (cells are tried in ascending
index order, first winning cell wins). -/
theorem getBestMove_immediate_win (rand : Rand) (board : Board)
    (player : Player) (i : Nat)
    (hm : rand.mistake = false) (hc : countMarks board ≠ 1)
    (hi : winAt board player i)
    (hmin : ∀ j < i, ¬ winAt board player j) :
    (getBestMove rand board player).1 = some i := by
  obtain ⟨hi9, hie, hiw⟩ := hi
  unfold getBestMove
  rw [if_neg (by simp [hm]), if_neg hc]
  unfold tacticalMove
  rcases e1 : tryMarksOn player (List.range 9) board with ⟨w1, b1⟩
  have hw1 : w1 = some i := by
    have h := tryMarksOn_fst player (List.range 9) board
    rw [e1] at h
    dsimp only at h
    rw [h]
    apply find?_range_eq_some _ i 9 hi9 (by simp [hie, hiw])
    intro j hj
    have hj9 : j < 9 := by omega
    by_cases hje : cellNth board j = none
    · have hnw : ¬ checkWin (board.set j (some player)) = true :=
        fun hw => hmin j hj ⟨hj9, hje, hw⟩
      simp [hje, hnw]
    · simp [hje]
  rw [hw1]

/-- Witness for C5: on `[O, O, null, X, X, null, null, null, null]` with the
mistake branch off, `X` completes its row at the smallest winning empty
index, cell 5. -/
theorem getBestMove_immediate_win_witness :
    (⟨false, 0, 0, false, 0⟩ : Rand).mistake = false
    ∧ countMarks [some Player.O, some Player.O, none,
        some Player.X, some Player.X, none, none, none, none] ≠ 1
    ∧ winAt [some Player.O, some Player.O, none,
        some Player.X, some Player.X, none, none, none, none] Player.X 5
    ∧ (getBestMove ⟨false, 0, 0, false, 0⟩
        [some Player.O, some Player.O, none,
         some Player.X, some Player.X, none, none, none, none]
        Player.X).1 = some 5 :=
  ⟨rfl, by decide, by decide,
   getBestMove_immediate_win ⟨false, 0, 0, false, 0⟩
     [some Player.O, some Player.O, none,
      some Player.X, some Player.X, none, none, none, none]
     Player.X 5 rfl (by decide) (by decide) (by decide)⟩

/-- **C6.** Immediate block: when the random mistake branch does not
trigger, the number of non-empty cells is not exactly one, no empty cell
gives `player` an immediate win, and some empty cell `i` would give the
opposing mark an immediate `checkWin`, then `getBestMove` returns the
smallest such blocking index. -/
theorem getBestMove_immediate_block (rand : Rand) (board : Board)
    (player : Player) (i : Nat)
    (hm : rand.mistake = false) (hc : countMarks board ≠ 1)
    (hnowin : ∀ j, ¬ winAt board player j)
    (hi : winAt board (jsOpponent player) i)
    (hmin : ∀ j < i, ¬ winAt board (jsOpponent player) j) :
    (getBestMove rand board player).1 = some i := by
  obtain ⟨hi9, hie, hiw⟩ := hi
  unfold getBestMove
  rw [if_neg (by simp [hm]), if_neg hc]
  unfold tacticalMove
  rcases e1 : tryMarksOn player (List.range 9) board with ⟨w1, b1⟩
  have hb1 : b1 = board := by
    have h := tryMarksOn_board player (List.range 9) board
    rw [e1] at h
    exact h
  have hw1 : w1 = none := by
    have h := tryMarksOn_fst player (List.range 9) board
    rw [e1] at h
    dsimp only at h
    rw [h, List.find?_eq_none]
    intro j hj
    simp only [List.mem_range] at hj
    intro hpred
    simp only [Bool.and_eq_true, decide_eq_true_eq] at hpred
    exact hnowin j ⟨hj, hpred.1, hpred.2⟩
  rw [hw1, hb1]
  dsimp only
  rcases e2 : tryMarksOn (jsOpponent player) (List.range 9) board
    with ⟨w2, b2⟩
  have hw2 : w2 = some i := by
    have h := tryMarksOn_fst (jsOpponent player) (List.range 9) board
    rw [e2] at h
    dsimp only at h
    rw [h]
    apply find?_range_eq_some _ i 9 hi9 (by simp [hie, hiw])
    intro j hj
    have hj9 : j < 9 := by omega
    by_cases hje : cellNth board j = none
    · have hnw : ¬ checkWin (board.set j (some (jsOpponent player))) = true :=
        fun hw => hmin j hj ⟨hj9, hje, hw⟩
      simp [hje, hnw]
    · simp [hje]
  rw [hw2]

/-- Witness for C6: on `[O, O, null, X, null, null, null, null, null]` the
human (`O`) threatens cell 2 and `X` has no immediate win, so `X` blocks
at cell 2. -/
theorem getBestMove_immediate_block_witness :
    countMarks [some Player.O, some Player.O, none,
        some Player.X, none, none, none, none, none] ≠ 1
    ∧ (∀ j, ¬ winAt [some Player.O, some Player.O, none,
        some Player.X, none, none, none, none, none] Player.X j)
    ∧ winAt [some Player.O, some Player.O, none,
        some Player.X, none, none, none, none, none]
        (jsOpponent Player.X) 2
    ∧ (getBestMove ⟨false, 0, 0, false, 0⟩
        [some Player.O, some Player.O, none,
         some Player.X, none, none, none, none, none]
        Player.X).1 = some 2 := by
  refine ⟨by decide, ?_, by decide, ?_⟩
  · intro j
    by_cases hj : j < 9
    · revert hj
      revert j
      decide
    · intro hw
      exact hj hw.1
  · apply getBestMove_immediate_block ⟨false, 0, 0, false, 0⟩ _ Player.X 2
      rfl (by decide)
    · intro j
      by_cases hj : j < 9
      · revert hj
        revert j
        decide
      · intro hw
        exact hj hw.1
    · decide
    · decide

/-- **C7.** Opening randomization scope: the opening branch of
`getBestMove` runs exactly when the random mistake branch has not triggered
and the number of non-empty cells is exactly one; on that branch the result
is a random empty cell (and the board is untouched), and for every other
non-empty-cell count the tactical win/block/center/fallback computation is
reached. -/
theorem openingBranch_scope (rand : Rand) (board : Board) (player : Player) :
    (chosenBranch rand board = PolicyBranch.opening
      ↔ rand.mistake = false ∧ countMarks board = 1)
    ∧ (chosenBranch rand board = PolicyBranch.opening →
        getBestMove rand board player =
          (jsPick (availableMoves board) rand.openingChoice, board))
    ∧ (rand.mistake = false → countMarks board ≠ 1 →
        getBestMove rand board player = tacticalMove rand board player) := by
  unfold chosenBranch getBestMove
  by_cases hm : rand.mistake
  · simp [hm]
  · by_cases hc : countMarks board = 1
    · simp [hm, hc]
    · simp [hm, hc]

/-- Witness for C7 at a concrete draw record and board: the human has just
played the center of an empty board (one mark present), so the opening
branch fires. -/
theorem openingBranch_scope_witness :
    (chosenBranch ⟨false, 0, 3, false, 0⟩
        [none, none, none, none, some Player.O, none, none, none, none]
      = PolicyBranch.opening
      ↔ (⟨false, 0, 3, false, 0⟩ : Rand).mistake = false
        ∧ countMarks [none, none, none, none, some Player.O,
            none, none, none, none] = 1)
    ∧ (chosenBranch ⟨false, 0, 3, false, 0⟩
        [none, none, none, none, some Player.O, none, none, none, none]
        = PolicyBranch.opening →
        getBestMove ⟨false, 0, 3, false, 0⟩
          [none, none, none, none, some Player.O, none, none, none, none]
          Player.X
        = (jsPick (availableMoves [none, none, none, none, some Player.O,
            none, none, none, none]) 3,
           [none, none, none, none, some Player.O, none, none, none, none]))
    ∧ ((⟨false, 0, 3, false, 0⟩ : Rand).mistake = false →
        countMarks [none, none, none, none, some Player.O,
          none, none, none, none] ≠ 1 →
        getBestMove ⟨false, 0, 3, false, 0⟩
          [none, none, none, none, some Player.O, none, none, none, none]
          Player.X
        = tacticalMove ⟨false, 0, 3, false, 0⟩
            [none, none, none, none, some Player.O, none, none, none, none]
            Player.X) :=
  openingBranch_scope ⟨false, 0, 3, false, 0⟩
    [none, none, none, none, some Player.O, none, none, none, none] Player.X

/-! ### `getBestMove` only ever selects empty cells -/

theorem jsPick_empty_cell (board : Board) (k i : Nat)
    (h : jsPick (availableMoves board) k = some i) :
    cellNth board i = none := by
  unfold jsPick at h
  have hmem : i ∈ availableMoves board := List.get?_mem h
  unfold availableMoves at hmem
  rw [List.mem_filter] at hmem
  simpa using hmem.2

theorem tacticalMove_empty_cell (rand : Rand) (board : Board)
    (player : Player) (i : Nat)
    (h : (tacticalMove rand board player).1 = some i) :
    cellNth board i = none := by
  unfold tacticalMove at h
  rcases e1 : tryMarksOn player (List.range 9) board with ⟨w1, b1⟩
  rw [e1] at h
  have hb1 : b1 = board := by
    have t := tryMarksOn_board player (List.range 9) board
    rw [e1] at t
    exact t
  have hf1 : w1 = (List.range 9).find? fun j =>
      decide (cellNth board j = none)
        && checkWin (board.set j (some player)) := by
    have t := tryMarksOn_fst player (List.range 9) board
    rw [e1] at t
    exact t
  cases w1 with
  | some j =>
    dsimp only at h
    cases h
    have hp := List.find?_some hf1.symm
    simp only [Bool.and_eq_true, decide_eq_true_eq] at hp
    exact hp.1
  | none =>
    dsimp only at h
    rw [hb1] at h
    rcases e2 : tryMarksOn (jsOpponent player) (List.range 9) board
      with ⟨w2, b2⟩
    rw [e2] at h
    have hb2 : b2 = board := by
      have t := tryMarksOn_board (jsOpponent player) (List.range 9) board
      rw [e2] at t
      exact t
    have hf2 : w2 = (List.range 9).find? fun j =>
        decide (cellNth board j = none)
          && checkWin (board.set j (some (jsOpponent player))) := by
      have t := tryMarksOn_fst (jsOpponent player) (List.range 9) board
      rw [e2] at t
      exact t
    cases w2 with
    | some j =>
      dsimp only at h
      cases h
      have hp := List.find?_some hf2.symm
      simp only [Bool.and_eq_true, decide_eq_true_eq] at hp
      exact hp.1
    | none =>
      dsimp only at h
      rw [hb2] at h
      by_cases hcen : (decide (cellNth board 4 = none) && rand.centerTake)
          = true
      · rw [if_pos hcen] at h
        dsimp only at h
        cases h
        simp only [Bool.and_eq_true, decide_eq_true_eq] at hcen
        exact hcen.1
      · rw [if_neg hcen] at h
        dsimp only at h
        exact jsPick_empty_cell board _ i h

theorem getBestMove_empty_cell (rand : Rand) (board : Board)
    (player : Player) (i : Nat)
    (h : (getBestMove rand board player).1 = some i) :
    cellNth board i = none := by
  unfold getBestMove at h
  split at h
  · exact jsPick_empty_cell board _ i h
  · split at h
    · exact jsPick_empty_cell board _ i h
    · exact tacticalMove_empty_cell rand board player i h

/-! ### The `/game` move-handling step -/

/-- The three difficulty levels of the protocol variant that stores one. -/
inductive Difficulty where
  | easy : Difficulty
  | medium : Difficulty
  | hard : Difficulty
deriving DecidableEq, Repr

/-- The `GameState` record of `src/api/index.tsx` lines 704-709:
`board`, `currentPlayer`, `isGameOver`, `difficulty`. -/
structure GameState where
  board : Board
  currentPlayer : Player
  isGameOver : Bool
  difficulty : Difficulty
deriving DecidableEq, Repr

/-- The user-visible outcome of one `/game` move interaction, one
constructor per `message` assignment of lines 1322-1364. -/
inductive StepMsg where
  | playerWin : StepMsg
  | tie : StepMsg
  | computerWin : StepMsg
  | computerTie : StepMsg
  | yourTurn : StepMsg
  | gameOver : StepMsg
  | spotTaken : StepMsg
deriving DecidableEq, Repr

/-- The move-handling step of the `/game` route (`src/api/index.tsx`
lines 1320-1365), applied to an already-decoded state and parsed move
index: the `if (state.board[move] === null && !state.isGameOver)` guard,
the human `'O'` placement, the win/draw checks, the computer reply through
`getBestMove`, and the two rejection branches.  When `getBestMove` yields
`undefined` (`none`, possible only on a full board), the JavaScript write
`state.board[undefined] = 'X'` touches no array slot, which the model
reflects by leaving the board as the policy returned it. -/
def gameStep (rand : Rand) (state : GameState) (move : Nat) :
    GameState × StepMsg :=
  if cellNth state.board move = none ∧ state.isGameOver = false then
    let b1 := state.board.set move (some Player.O)
    if checkWin b1 then
      ({ state with board := b1, isGameOver := true }, StepMsg.playerWin)
    else if b1.all fun c => c.isSome then
      ({ state with board := b1, isGameOver := true }, StepMsg.tie)
    else
      let res := getBestMove rand b1 Player.X
      let b2 := match res.1 with
        | some cm => res.2.set cm (some Player.X)
        | none => res.2
      if checkWin b2 then
        ({ state with board := b2, isGameOver := true }, StepMsg.computerWin)
      else if b2.all fun c => c.isSome then
        ({ state with board := b2, isGameOver := true }, StepMsg.computerTie)
      else
        ({ state with board := b2 }, StepMsg.yourTurn)
  else if state.isGameOver then (state, StepMsg.gameOver)
  else (state, StepMsg.spotTaken)

theorem cellNth_set_ne (b : Board) (i j : Nat) (c : Cell) (hij : j ≠ i) :
    cellNth (b.set j c) i = cellNth b i := by
  unfold cellNth
  rw [List.getD_eq_getElem?_getD, List.getD_eq_getElem?_getD,
    List.getElem?_set_ne hij]

/-- Helper: the rejection equation for an occupied cell on a live game. -/
theorem gameStep_spotTaken_eq (rand : Rand) (state : GameState) (move : Nat)
    (hterm : state.isGameOver = false)
    (htaken : cellNth state.board move ≠ none) :
    gameStep rand state move = (state, StepMsg.spotTaken) := by
  unfold gameStep
  rw [if_neg fun hh => htaken hh.1, if_neg (by simp [hterm])]

/-- Helper: the rejection equation for a finished game. -/
theorem gameStep_gameOver_eq (rand : Rand) (state : GameState) (move : Nat)
    (hover : state.isGameOver = true) :
    gameStep rand state move = (state, StepMsg.gameOver) := by
  unfold gameStep
  rw [if_neg fun hh => by rw [hover] at hh; exact absurd hh.2 (by simp),
    if_pos hover]

/-- Helper: no branch of the step writes into an occupied cell. -/
theorem gameStep_preserves_occupied (rand : Rand) (state : GameState)
    (move i : Nat) (hocc : cellNth state.board i ≠ none) :
    cellNth (gameStep rand state move).1.board i = cellNth state.board i := by
  unfold gameStep
  by_cases hcond : cellNth state.board move = none ∧ state.isGameOver = false
  · rw [if_pos hcond]
    have him : move ≠ i := fun he => hocc (he ▸ hcond.1)
    have hb1 : cellNth (state.board.set move (some Player.O)) i
        = cellNth state.board i := cellNth_set_ne state.board i move _ him
    have hocc1 : cellNth (state.board.set move (some Player.O)) i ≠ none := by
      rw [hb1]
      exact hocc
    set b1 := state.board.set move (some Player.O) with hb1def
    by_cases hw1 : checkWin b1 = true
    · rw [if_pos hw1]
      exact hb1
    · rw [if_neg hw1]
      by_cases hall1 : (b1.all fun c => c.isSome) = true
      · rw [if_pos hall1]
        exact hb1
      · rw [if_neg hall1]
        dsimp only
        have hres2 : (getBestMove rand b1 Player.X).2 = b1 :=
          getBestMove_board_eq rand b1 Player.X
        have hb2 : cellNth (match (getBestMove rand b1 Player.X).1 with
            | some cm => (getBestMove rand b1 Player.X).2.set cm
                (some Player.X)
            | none => (getBestMove rand b1 Player.X).2) i
            = cellNth state.board i := by
          cases hgm : (getBestMove rand b1 Player.X).1 with
          | none =>
            rw [hres2]
            exact hb1
          | some cm =>
            have hcm : cellNth b1 cm = none :=
              getBestMove_empty_cell rand b1 Player.X cm hgm
            have hcmi : cm ≠ i := fun he => hocc1 (he ▸ hcm)
            rw [hres2, cellNth_set_ne b1 i cm _ hcmi]
            exact hb1
        by_cases hw2 : checkWin (match (getBestMove rand b1 Player.X).1 with
            | some cm => (getBestMove rand b1 Player.X).2.set cm
                (some Player.X)
            | none => (getBestMove rand b1 Player.X).2) = true
        · rw [if_pos hw2]
          exact hb2
        · rw [if_neg hw2]
          split
          · exact hb2
          · exact hb2
  · rw [if_neg hcond]
    split
    · rfl
    · rfl

/-- **C3.** Cell-taken rejection with atomicity: on a non-terminal state,
a move aimed at a non-empty cell is rejected with the
"That spot is already taken!" outcome and the whole `GameState` — every
board cell, `currentPlayer`, `isGameOver`, `difficulty` — is returned
exactly as it was; moreover the step never overwrites a non-empty cell of
any state, whatever the move. -/
theorem gameStep_cellTaken (rand : Rand) (state : GameState) (move : Nat)
    (hterm : state.isGameOver = false)
    (htaken : cellNth state.board move ≠ none) :
    gameStep rand state move = (state, StepMsg.spotTaken)
    ∧ ∀ (r2 : Rand) (s2 : GameState) (m2 i : Nat),
        cellNth s2.board i ≠ none →
        cellNth (gameStep r2 s2 m2).1.board i = cellNth s2.board i :=
  ⟨gameStep_spotTaken_eq rand state move hterm htaken,
   fun r2 s2 m2 i hocc => gameStep_preserves_occupied r2 s2 m2 i hocc⟩

/-- Witness for C3: on a live state whose cell 0 is already occupied, the
move at 0 is rejected and the state survives untouched. -/
theorem gameStep_cellTaken_witness :
    (GameState.mk [some Player.O, none, none, none, none, none, none, none,
        none] Player.O false Difficulty.easy).isGameOver = false
    ∧ cellNth (GameState.mk [some Player.O, none, none, none, none, none,
        none, none, none] Player.O false Difficulty.easy).board 0 ≠ none
    ∧ gameStep ⟨false, 0, 0, false, 0⟩
        (GameState.mk [some Player.O, none, none, none, none, none, none,
          none, none] Player.O false Difficulty.easy) 0
      = (GameState.mk [some Player.O, none, none, none, none, none, none,
          none, none] Player.O false Difficulty.easy, StepMsg.spotTaken) :=
  ⟨rfl, by decide,
   (gameStep_cellTaken ⟨false, 0, 0, false, 0⟩
     (GameState.mk [some Player.O, none, none, none, none, none, none,
       none, none] Player.O false Difficulty.easy) 0 rfl (by decide)).1⟩

/-- **C4.** Terminal monotonicity and game-over rejection: on a state with
`isGameOver = true` the step applies no move (the returned state is the
input state, so no cell changes and no computer reply is placed) and
rejects with the "Game is over" outcome; and across any single step of any
state, `isGameOver = true` is preserved, so it never reverts to `false`
along a lineage of move interactions. -/
theorem gameStep_terminal (rand : Rand) (state : GameState) (move : Nat)
    (hover : state.isGameOver = true) :
    gameStep rand state move = (state, StepMsg.gameOver)
    ∧ ∀ (r2 : Rand) (s2 : GameState) (m2 : Nat), s2.isGameOver = true →
        (gameStep r2 s2 m2).1.isGameOver = true :=
  ⟨gameStep_gameOver_eq rand state move hover,
   fun r2 s2 m2 h2 => by rw [gameStep_gameOver_eq r2 s2 m2 h2]; exact h2⟩

/-- Witness for C4 on a concrete finished state. -/
theorem gameStep_terminal_witness :
    (GameState.mk [some Player.O, some Player.O, some Player.O, none, none,
        none, none, none, none] Player.O true Difficulty.hard).isGameOver
      = true
    ∧ gameStep ⟨true, 2, 2, true, 2⟩
        (GameState.mk [some Player.O, some Player.O, some Player.O, none,
          none, none, none, none, none] Player.O true Difficulty.hard) 4
      = (GameState.mk [some Player.O, some Player.O, some Player.O, none,
          none, none, none, none, none] Player.O true Difficulty.hard,
         StepMsg.gameOver) :=
  ⟨rfl,
   (gameStep_terminal ⟨true, 2, 2, true, 2⟩
     (GameState.mk [some Player.O, some Player.O, some Player.O, none,
       none, none, none, none, none] Player.O true Difficulty.hard) 4
     rfl).1⟩

/-! ### The policy on a full board (claim C8) -/

theorem cellNth_isSome_of_full (board : Board)
    (hfull : ∀ c ∈ board, c.isSome) (i : Nat) (hi : i < board.length) :
    (cellNth board i).isSome := by
  have hget : cellNth board i = board.get ⟨i, hi⟩ := by
    unfold cellNth
    rw [List.getD_eq_getElem?_getD, List.getElem?_eq_getElem hi]
    rfl
  rw [hget]
  exact hfull _ (List.get_mem board i hi)

theorem availableMoves_nil_of_full (board : Board)
    (hfull : ∀ c ∈ board, c.isSome) : availableMoves board = [] := by
  unfold availableMoves
  rw [List.filter_eq_nil_iff]
  intro j hj
  rw [List.mem_range] at hj
  have hs := cellNth_isSome_of_full board hfull j hj
  simp only [Option.isSome_iff_ne_none] at hs
  simp [hs]

/-- Counterexample to C8 as stated: invoked on a concrete full board,
`getBestMove` does not fail with any distinguishable error — the model has
no error channel because the source has none — but runs to completion and
returns the JavaScript `undefined` produced by indexing the empty
`availableMoves` array (`none` here), leaving the board as it was. -/
theorem getBestMove_full_board_counterexample :
    getBestMove ⟨false, 0, 0, false, 0⟩
      [some Player.O, some Player.X, some Player.O,
       some Player.X, some Player.O, some Player.X,
       some Player.X, some Player.O, some Player.X] Player.X
    = (none,
       [some Player.O, some Player.X, some Player.O,
        some Player.X, some Player.O, some Player.X,
        some Player.X, some Player.O, some Player.X]) := by
  decide

/-- **C8 (amended).** Policy precondition failure: invoked on a 9-cell
board with no empty cell, `getBestMove` returns JavaScript `undefined`
(`none`) — an invalid, indistinguishable non-move rather than a
`PolicyError::NoMovesAvailable` failure — and leaves the board unchanged,
for every draw record and player. -/
theorem getBestMove_full_board (rand : Rand) (board : Board)
    (player : Player) (h9 : board.length = 9)
    (hfull : ∀ c ∈ board, c.isSome) :
    getBestMove rand board player = (none, board) := by
  have havail : availableMoves board = [] :=
    availableMoves_nil_of_full board hfull
  have hpick : ∀ k, jsPick (availableMoves board) k = none := by
    intro k
    rw [havail]
    rfl
  have hfind : ∀ mark : Player, ((List.range 9).find? fun j =>
      decide (cellNth board j = none)
        && checkWin (board.set j (some mark))) = none := by
    intro mark
    rw [List.find?_eq_none]
    intro j hj
    rw [List.mem_range] at hj
    have hs := cellNth_isSome_of_full board hfull j (by omega)
    simp only [Option.isSome_iff_ne_none] at hs
    simp [hs]
  unfold getBestMove
  split
  · rw [hpick]
  · split
    · rw [hpick]
    · unfold tacticalMove
      rcases e1 : tryMarksOn player (List.range 9) board with ⟨w1, b1⟩
      have hb1 : b1 = board := by
        have t := tryMarksOn_board player (List.range 9) board
        rw [e1] at t
        exact t
      have hw1 : w1 = none := by
        have t := tryMarksOn_fst player (List.range 9) board
        rw [e1] at t
        dsimp only at t
        rw [t]
        exact hfind player
      rw [hw1, hb1]
      dsimp only
      rcases e2 : tryMarksOn (jsOpponent player) (List.range 9) board
        with ⟨w2, b2⟩
      have hb2 : b2 = board := by
        have t := tryMarksOn_board (jsOpponent player) (List.range 9) board
        rw [e2] at t
        exact t
      have hw2 : w2 = none := by
        have t := tryMarksOn_fst (jsOpponent player) (List.range 9) board
        rw [e2] at t
        dsimp only at t
        rw [t]
        exact hfind (jsOpponent player)
      rw [hw2, hb2]
      dsimp only
      have hc4 := cellNth_isSome_of_full board hfull 4 (by omega)
      rw [Option.isSome_iff_ne_none] at hc4
      rw [if_neg (by simp [hc4])]
      rw [hpick]

/-- Witness for C8 (amended) on a concrete full board. -/
theorem getBestMove_full_board_witness :
    ([some Player.X, some Player.O, some Player.X,
      some Player.O, some Player.X, some Player.O,
      some Player.O, some Player.X, some Player.O] : Board).length = 9
    ∧ getBestMove ⟨true, 5, 5, true, 5⟩
        [some Player.X, some Player.O, some Player.X,
         some Player.O, some Player.X, some Player.O,
         some Player.O, some Player.X, some Player.O] Player.O
      = (none,
         [some Player.X, some Player.O, some Player.X,
          some Player.O, some Player.X, some Player.O,
          some Player.O, some Player.X, some Player.O]) :=
  ⟨by decide,
   getBestMove_full_board ⟨true, 5, 5, true, 5⟩
     [some Player.X, some Player.O, some Player.X,
      some Player.O, some Player.X, some Player.O,
      some Player.O, some Player.X, some Player.O] Player.O
     (by decide) (by decide)⟩

/-! ### Base64 transport layer of the state codec -/

/-- The alphabet used by `Buffer.toString('base64')`. -/
def b64Alphabet : List Char :=
  ['A','B','C','D','E','F','G','H','I','J','K','L','M','N','O','P','Q','R',
   'S','T','U','V','W','X','Y','Z','a','b','c','d','e','f','g','h','i','j',
   'k','l','m','n','o','p','q','r','s','t','u','v','w','x','y','z','0','1',
   '2','3','4','5','6','7','8','9','+','/']

def b64Char (n : Nat) : Char := b64Alphabet.getD n 'A'

/-- The 6-bit value of an alphabet character; `none` for every character —
the padding `=` included — that `Buffer.from(s, 'base64')` skips. -/
def b64Val (c : Char) : Option Nat :=
  (List.range 64).find? fun n => b64Alphabet.getD n 'A' = c

/-- `Buffer.from(bytes).toString('base64')`: standard base64, 3 bytes to 4
characters, `=`-padded. -/
def base64Encode : List Nat → List Char
  | [] => []
  | [a] => [b64Char (a / 4), b64Char (a % 4 * 16), '=', '=']
  | [a, b] => [b64Char (a / 4), b64Char (a % 4 * 16 + b / 16),
      b64Char (b % 16 * 4), '=']
  | a :: b :: c :: rest =>
      b64Char (a / 4) :: b64Char (a % 4 * 16 + b / 16)
        :: b64Char (b % 16 * 4 + c / 64) :: b64Char (c % 64)
        :: base64Encode rest

/-- Regrouping of the surviving 6-bit values into bytes, as
`Buffer.from(s, 'base64')` performs after discarding non-alphabet
characters: a full group of 4 values yields 3 bytes, a trailing group of 3
yields 2, a trailing group of 2 yields 1. -/
def b64Regroup : List Nat → List Nat
  | v1 :: v2 :: v3 :: v4 :: rest =>
      (v1 * 4 + v2 / 16) :: (v2 % 16 * 16 + v3 / 4) :: (v3 % 4 * 64 + v4)
        :: b64Regroup rest
  | [v1, v2, v3] => [v1 * 4 + v2 / 16, v2 % 16 * 16 + v3 / 4]
  | [v1, v2] => [v1 * 4 + v2 / 16]
  | _ => []

/-- `Buffer.from(s, 'base64')`: decode, never throwing (invalid characters
are skipped, a partial trailing group is decoded best-effort). -/
def base64Decode (s : List Char) : List Nat :=
  b64Regroup (s.filterMap b64Val)

theorem b64Val_b64Char : ∀ n < 64, b64Val (b64Char n) = some n := by
  decide

theorem b64Val_pad : b64Val '=' = none := by decide

theorem base64_roundtrip :
    ∀ bs : List Nat, (∀ x ∈ bs, x < 256) →
      base64Decode (base64Encode bs) = bs
  | [], _ => rfl
  | [a], h => by
    have ha : a < 256 := h a (by simp)
    have h1 := b64Val_b64Char (a / 4) (by omega)
    have h2 := b64Val_b64Char (a % 4 * 16) (by omega)
    unfold base64Decode base64Encode
    simp only [List.filterMap_cons, h1, h2, b64Val_pad, List.filterMap_nil]
    show b64Regroup [a / 4, a % 4 * 16] = [a]
    unfold b64Regroup
    have e1 : a / 4 * 4 + a % 4 * 16 / 16 = a := by omega
    rw [e1]
  | [a, b], h => by
    have ha : a < 256 := h a (by simp)
    have hb : b < 256 := h b (by simp)
    have h1 := b64Val_b64Char (a / 4) (by omega)
    have h2 := b64Val_b64Char (a % 4 * 16 + b / 16) (by omega)
    have h3 := b64Val_b64Char (b % 16 * 4) (by omega)
    unfold base64Decode base64Encode
    simp only [List.filterMap_cons, h1, h2, h3, b64Val_pad,
      List.filterMap_nil]
    show b64Regroup [a / 4, a % 4 * 16 + b / 16, b % 16 * 4] = [a, b]
    unfold b64Regroup
    have e1 : a / 4 * 4 + (a % 4 * 16 + b / 16) / 16 = a := by omega
    have e2 : (a % 4 * 16 + b / 16) % 16 * 16 + b % 16 * 4 / 4 = b := by
      omega
    rw [e1, e2]
  | a :: b :: c :: d :: rest, h => by
    have ha : a < 256 := h a (by simp)
    have hb : b < 256 := h b (by simp)
    have hc : c < 256 := h c (by simp)
    have hrest : ∀ x ∈ d :: rest, x < 256 := fun x hx => h x (by
      simp only [List.mem_cons] at hx ⊢
      tauto)
    have ih := base64_roundtrip (d :: rest) hrest
    have h1 := b64Val_b64Char (a / 4) (by omega)
    have h2 := b64Val_b64Char (a % 4 * 16 + b / 16) (by omega)
    have h3 := b64Val_b64Char (b % 16 * 4 + c / 64) (by omega)
    have h4 := b64Val_b64Char (c % 64) (by omega)
    unfold base64Decode at ih ⊢
    show b64Regroup (List.filterMap b64Val
        (b64Char (a / 4) :: b64Char (a % 4 * 16 + b / 16)
          :: b64Char (b % 16 * 4 + c / 64) :: b64Char (c % 64)
          :: base64Encode (d :: rest))) = a :: b :: c :: d :: rest
    simp only [List.filterMap_cons, h1, h2, h3, h4]
    show b64Regroup (a / 4 :: (a % 4 * 16 + b / 16)
        :: (b % 16 * 4 + c / 64) :: c % 64
        :: List.filterMap b64Val (base64Encode (d :: rest)))
      = a :: b :: c :: d :: rest
    unfold b64Regroup
    rw [ih]
    have e1 : a / 4 * 4 + (a % 4 * 16 + b / 16) / 16 = a := by omega
    have e2 : (a % 4 * 16 + b / 16) % 16 * 16 + (b % 16 * 4 + c / 64) / 4
        = b := by omega
    have e3 : (b % 16 * 4 + c / 64) % 4 * 64 + c % 64 = c := by omega
    rw [e1, e2, e3]
  | [a, b, c], h => by
    have ha : a < 256 := h a (by simp)
    have hb : b < 256 := h b (by simp)
    have hc : c < 256 := h c (by simp)
    have h1 := b64Val_b64Char (a / 4) (by omega)
    have h2 := b64Val_b64Char (a % 4 * 16 + b / 16) (by omega)
    have h3 := b64Val_b64Char (b % 16 * 4 + c / 64) (by omega)
    have h4 := b64Val_b64Char (c % 64) (by omega)
    unfold base64Decode base64Encode
    simp only [List.filterMap_cons, h1, h2, h3, h4, List.filterMap_nil]
    show b64Regroup [a / 4, a % 4 * 16 + b / 16, b % 16 * 4 + c / 64,
      c % 64] = [a, b, c]
    unfold b64Regroup
    have e1 : a / 4 * 4 + (a % 4 * 16 + b / 16) / 16 = a := by omega
    have e2 : (a % 4 * 16 + b / 16) % 16 * 16 + (b % 16 * 4 + c / 64) / 4
        = b := by omega
    have e3 : (b % 16 * 4 + c / 64) % 4 * 64 + c % 64 = c := by omega
    rw [e1, e2, e3]
    rfl

/-! ### JSON layer of the state codec -/

/-- The JSON values the token channel carries (no numbers and no string
escapes ever occur in an encoded `GameState` or in the malformed tokens
considered here). -/
inductive Json where
  | null : Json
  | bool : Bool → Json
  | str : List Char → Json
  | arr : List Json → Json
  | obj : List (List Char × Json) → Json

/-- `JSON.stringify` of one board cell: `null`, `"O"` or `"X"`. -/
def cellChars : Cell → List Char
  | none => ['n', 'u', 'l', 'l']
  | some Player.O => ['"', 'O', '"']
  | some Player.X => ['"', 'X', '"']

/-- Comma-separated serialisation of the `board` array elements. -/
def joinCells : List Cell → List Char
  | [] => []
  | [c] => cellChars c
  | c :: c2 :: cs => cellChars c ++ ',' :: joinCells (c2 :: cs)

def playerChar : Player → Char
  | Player.O => 'O'
  | Player.X => 'X'

def boolChars : Bool → List Char
  | true => ['t', 'r', 'u', 'e']
  | false => ['f', 'a', 'l', 's', 'e']

def diffChars : Difficulty → List Char
  | Difficulty.easy => ['e', 'a', 's', 'y']
  | Difficulty.medium => ['m', 'e', 'd', 'i', 'u', 'm']
  | Difficulty.hard => ['h', 'a', 'r', 'd']

def boardKey : List Char := ['b', 'o', 'a', 'r', 'd']

def playerKey : List Char :=
  ['c', 'u', 'r', 'r', 'e', 'n', 't', 'P', 'l', 'a', 'y', 'e', 'r']

def overKey : List Char := ['i', 's', 'G', 'a', 'm', 'e', 'O', 'v', 'e', 'r']

def diffKey : List Char := ['d', 'i', 'f', 'f', 'i', 'c', 'u', 'l', 't', 'y']

def medChars : List Char := ['m', 'e', 'd', 'i', 'u', 'm']

/-- `JSON.stringify(state)`: the exact character sequence produced for a
`GameState` object — keys in declaration order `board`, `currentPlayer`,
`isGameOver`, `difficulty`, no whitespace. -/
def jsonOfState (st : GameState) : List Char :=
  ['{', '"'] ++ boardKey ++ ['"', ':', '['] ++ joinCells st.board
    ++ [']', ',', '"'] ++ playerKey ++ ['"', ':', '"']
    ++ [playerChar st.currentPlayer] ++ ['"', ',', '"'] ++ overKey
    ++ ['"', ':'] ++ boolChars st.isGameOver ++ [',', '"'] ++ diffKey
    ++ ['"', ':', '"'] ++ diffChars st.difficulty ++ ['"', '}']

/-- Body of an escape-free JSON string: the characters up to the closing
quote and the remaining input after it. -/
def parseStrBody : List Char → Option (List Char × List Char)
  | [] => none
  | c :: r =>
    if c = '"' then some ([], r)
    else
      match parseStrBody r with
      | some (s, r2) => some (c :: s, r2)
      | none => none

/-- Fuel-indexed recursive-descent model of `JSON.parse` on the grammar the
token channel uses: `null`, booleans, escape-free strings, arrays and
objects, with no whitespace skipping.  A `'['` (resp. `'{'`) re-entry after
a comma parses the tail of an array (object), keeping the recursion
structural in the fuel; every recursive call is on a strictly shorter
input, so fuel `length + 1` always suffices. -/
def parseVal : Nat → List Char → Option (Json × List Char)
  | _ + 1, 'n' :: 'u' :: 'l' :: 'l' :: r => some (Json.null, r)
  | _ + 1, 't' :: 'r' :: 'u' :: 'e' :: r => some (Json.bool true, r)
  | _ + 1, 'f' :: 'a' :: 'l' :: 's' :: 'e' :: r => some (Json.bool false, r)
  | _ + 1, '"' :: r =>
    (match parseStrBody r with
     | some (s, r2) => some (Json.str s, r2)
     | none => none)
  | _ + 1, '[' :: ']' :: r => some (Json.arr [], r)
  | fuel + 1, '[' :: r =>
    (match parseVal fuel r with
     | some (v, ',' :: r2) =>
       (match parseVal fuel ('[' :: r2) with
        | some (Json.arr vs, r3) => some (Json.arr (v :: vs), r3)
        | _ => none)
     | some (v, ']' :: r2) => some (Json.arr [v], r2)
     | _ => none)
  | _ + 1, '{' :: '}' :: r => some (Json.obj [], r)
  | fuel + 1, '{' :: '"' :: r =>
    (match parseStrBody r with
     | some (k, ':' :: r2) =>
       (match parseVal fuel r2 with
        | some (v, ',' :: r3) =>
          (match parseVal fuel ('{' :: r3) with
           | some (Json.obj ms, r4) => some (Json.obj ((k, v) :: ms), r4)
           | _ => none)
        | some (v, '}' :: r3) => some (Json.obj [(k, v)], r3)
        | _ => none)
     | _ => none)
  | _, _ => none

/-- `JSON.parse`: whole-input parse, `none` modelling the thrown
`SyntaxError` on unparseable text or trailing characters. -/
def jsonParse (s : List Char) : Option Json :=
  match parseVal (s.length + 1) s with
  | some (v, []) => some v
  | _ => none

/-- The JSON value of a board cell. -/
def cellJson : Cell → Json
  | none => Json.null
  | some Player.O => Json.str ['O']
  | some Player.X => Json.str ['X']

/-- The JSON value `JSON.parse` recovers from an encoded `GameState`. -/
def stateJson (st : GameState) : Json :=
  Json.obj [(boardKey, Json.arr (st.board.map cellJson)),
    (playerKey, Json.str [playerChar st.currentPlayer]),
    (overKey, Json.bool st.isGameOver),
    (diffKey, Json.str (diffChars st.difficulty))]

/-- JavaScript property read on a decoded object. -/
def jsLookup : List (List Char × Json) → List Char → Option Json
  | [], _ => none
  | (k, v) :: ms, key => if k = key then some v else jsLookup ms key

/-- JavaScript truthiness of a decoded value (`undefined` is handled by the
`Option` layer at the call sites). -/
def jsTruthy : Json → Bool
  | Json.null => false
  | Json.bool b => b
  | Json.str s => !s.isEmpty
  | Json.arr _ => true
  | Json.obj _ => true

/-- `{...decoded, difficulty: v}`: replace the entry in place when the key
already exists, append it otherwise (JavaScript spread-then-override key
order). -/
def setKey : List (List Char × Json) → List Char → Json →
    List (List Char × Json)
  | [], key, v => [(key, v)]
  | (k, w) :: ms, key, v =>
    if k = key then (key, v) :: ms else (k, w) :: setKey ms key v

/-- `decodeState` (`src/api/index.tsx` lines 1170-1177): base64-decode the
token, `JSON.parse` it (`Except.error` models the thrown `SyntaxError`),
then rebuild the object as `{...decoded, difficulty: decoded.difficulty ||
'medium'}`.  Reading `.difficulty` of a decoded `null` throws; spreading
any other non-object decoded value yields an object with no
`board`-relevant fields, modelled as the object holding just the defaulted
`difficulty`. -/
def decodeStateJs (tok : List Char) : Except Unit Json :=
  match jsonParse ((base64Decode tok).map Char.ofNat) with
  | none => Except.error ()
  | some Json.null => Except.error ()
  | some (Json.obj ms) =>
    Except.ok (Json.obj (setKey ms diffKey
      (match jsLookup ms diffKey with
       | some v => if jsTruthy v then v else Json.str medChars
       | none => Json.str medChars)))
  | some _ => Except.ok (Json.obj [(diffKey, Json.str medChars)])

def readCell : Json → Option Cell
  | Json.null => some none
  | Json.str ['O'] => some (some Player.O)
  | Json.str ['X'] => some (some Player.X)
  | _ => none

def readCells : List Json → Option (List Cell)
  | [] => some []
  | j :: js =>
    match readCell j, readCells js with
    | some c, some cs => some (c :: cs)
    | _, _ => none

def readPlayer : Json → Option Player
  | Json.str ['O'] => some Player.O
  | Json.str ['X'] => some Player.X
  | _ => none

def readDifficulty : Json → Option Difficulty
  | Json.str s =>
    if s = ['e', 'a', 's', 'y'] then some Difficulty.easy
    else if s = medChars then some Difficulty.medium
    else if s = ['h', 'a', 'r', 'd'] then some Difficulty.hard
    else none
  | _ => none

/-- Reading the observable `GameState` fields back out of a decoded JSON
value — exactly the fields the `/game` route consumes. -/
def readState (j : Json) : Option GameState :=
  match j with
  | Json.obj ms =>
    (match jsLookup ms boardKey, jsLookup ms playerKey,
        jsLookup ms overKey, jsLookup ms diffKey with
     | some (Json.arr cells), some pj, some (Json.bool go), some dj =>
       (match readCells cells, readPlayer pj, readDifficulty dj with
        | some b, some p, some d => some (GameState.mk b p go d)
        | _, _, _ => none)
     | _, _, _, _ => none)
  | _ => none

/-- `encodeState` (`src/api/index.tsx` lines 1166-1168):
`Buffer.from(JSON.stringify(state)).toString('base64')`; the emitted JSON
is pure ASCII, so its UTF-8 bytes are the character codes. -/
def encodeState (st : GameState) : List Char :=
  base64Encode ((jsonOfState st).map Char.toNat)

/-- The decode pipeline observed at type `GameState`: the raw object
`decodeState` returns, read back field by field. -/
def decodeState (tok : List Char) : Option GameState :=
  match decodeStateJs tok with
  | Except.ok j => readState j
  | Except.error _ => none

/-! ### Parsing the emitted JSON back -/

theorem parseStrBody_append (s r : List Char) (h : '"' ∉ s) :
    parseStrBody (s ++ '"' :: r) = some (s, r) := by
  induction s with
  | nil => rfl
  | cons c cs ih =>
    have hc : ¬ c = '"' := fun he => h (by simp [he])
    have hcs : '"' ∉ cs := fun hm => h (List.mem_cons_of_mem c hm)
    simp only [List.cons_append, parseStrBody, if_neg hc, List.append_eq,
      ih hcs]

theorem parseVal_cell (c : Cell) (fuel : Nat) (rest : List Char)
    (hf : 1 ≤ fuel) :
    parseVal fuel (cellChars c ++ rest) = some (cellJson c, rest) := by
  obtain ⟨f, rfl⟩ : ∃ f, fuel = f + 1 := ⟨fuel - 1, by omega⟩
  cases c with
  | none => rfl
  | some p => cases p <;> rfl

theorem parseVal_arr_enter (fuel : Nat) (hf : 1 ≤ fuel) (c : Cell)
    (rest : List Char) :
    parseVal fuel ('[' :: (cellChars c ++ rest))
      = (match parseVal (fuel - 1) (cellChars c ++ rest) with
         | some (v, ',' :: r2) =>
           (match parseVal (fuel - 1) ('[' :: r2) with
            | some (Json.arr vs, r3) => some (Json.arr (v :: vs), r3)
            | _ => none)
         | some (v, ']' :: r2) => some (Json.arr [v], r2)
         | _ => none) := by
  obtain ⟨f, rfl⟩ : ∃ f, fuel = f + 1 := ⟨fuel - 1, by omega⟩
  simp only [Nat.add_sub_cancel]
  cases c with
  | none => rfl
  | some p => cases p <;> rfl

theorem parseVal_cells (cells : List Cell) :
    ∀ (fuel : Nat) (r : List Char), cells.length + 1 ≤ fuel →
      parseVal fuel ('[' :: (joinCells cells ++ ']' :: r))
        = some (Json.arr (cells.map cellJson), r) := by
  induction cells with
  | nil =>
    intro fuel r hf
    obtain ⟨f, rfl⟩ : ∃ f, fuel = f + 1 := ⟨fuel - 1, by omega⟩
    rfl
  | cons c cs ih =>
    intro fuel r hf
    simp only [List.length_cons] at hf
    cases cs with
    | nil =>
      simp only [joinCells]
      rw [parseVal_arr_enter fuel (by omega) c (']' :: r)]
      rw [parseVal_cell c (fuel - 1) (']' :: r) (by omega)]
      rfl
    | cons c2 cs2 =>
      simp only [joinCells]
      rw [List.append_assoc, List.cons_append]
      rw [parseVal_arr_enter fuel (by omega) c
        (',' :: (joinCells (c2 :: cs2) ++ ']' :: r))]
      rw [parseVal_cell c (fuel - 1) _ (by omega)]
      simp only []
      rw [ih (fuel - 1) r (by simp only [List.length_cons] at *; omega)]
      rfl

theorem parseVal_obj_step (fuel : Nat) (hf : 1 ≤ fuel)
    (rbody : List Char) :
    parseVal fuel ('{' :: '"' :: rbody)
      = (match parseStrBody rbody with
         | some (k, ':' :: r2) =>
           (match parseVal (fuel - 1) r2 with
            | some (v, ',' :: r3) =>
              (match parseVal (fuel - 1) ('{' :: r3) with
               | some (Json.obj ms, r4) =>
                 some (Json.obj ((k, v) :: ms), r4)
               | _ => none)
            | some (v, '}' :: r3) => some (Json.obj [(k, v)], r3)
            | _ => none)
         | _ => none) := by
  obtain ⟨f, rfl⟩ : ∃ f, fuel = f + 1 := ⟨fuel - 1, by omega⟩
  simp only [Nat.add_sub_cancel]
  rfl

theorem parseVal_player (fuel : Nat) (hf : 1 ≤ fuel) (p : Player)
    (rest : List Char) :
    parseVal fuel ('"' :: playerChar p :: '"' :: rest)
      = some (Json.str [playerChar p], rest) := by
  obtain ⟨f, rfl⟩ : ∃ f, fuel = f + 1 := ⟨fuel - 1, by omega⟩
  cases p <;> rfl

theorem parseVal_bool (fuel : Nat) (hf : 1 ≤ fuel) (b : Bool)
    (rest : List Char) :
    parseVal fuel (boolChars b ++ rest) = some (Json.bool b, rest) := by
  obtain ⟨f, rfl⟩ : ∃ f, fuel = f + 1 := ⟨fuel - 1, by omega⟩
  cases b <;> rfl

theorem parseVal_diffStr (fuel : Nat) (hf : 1 ≤ fuel) (d : Difficulty)
    (rest : List Char) :
    parseVal fuel ('"' :: (diffChars d ++ '"' :: rest))
      = some (Json.str (diffChars d), rest) := by
  obtain ⟨f, rfl⟩ : ∃ f, fuel = f + 1 := ⟨fuel - 1, by omega⟩
  cases d <;> rfl

/-- The emitted JSON of a `GameState` parses back to its JSON value,
consuming the whole input. -/
theorem parseVal_state (st : GameState) (fuel : Nat)
    (hf : st.board.length + 5 ≤ fuel) :
    parseVal fuel (jsonOfState st) = some (stateJson st, []) := by
  obtain ⟨b, p, go, d⟩ := st
  dsimp only at hf
  unfold jsonOfState stateJson
  dsimp only
  simp only [List.append_assoc, List.cons_append, List.nil_append]
  rw [parseVal_obj_step fuel (by omega)]
  rw [parseStrBody_append boardKey _ (by decide)]
  simp only []
  rw [parseVal_cells b (fuel - 1) _ (by omega)]
  simp only []
  rw [parseVal_obj_step (fuel - 1) (by omega)]
  rw [parseStrBody_append playerKey _ (by decide)]
  simp only []
  rw [parseVal_player (fuel - 1 - 1) (by omega) p]
  simp only []
  rw [parseVal_obj_step (fuel - 1 - 1) (by omega)]
  rw [parseStrBody_append overKey _ (by decide)]
  simp only []
  rw [parseVal_bool (fuel - 1 - 1 - 1) (by omega) go]
  simp only []
  rw [parseVal_obj_step (fuel - 1 - 1 - 1) (by omega)]
  rw [parseStrBody_append diffKey _ (by decide)]
  simp only []
  rw [parseVal_diffStr (fuel - 1 - 1 - 1 - 1) (by omega) d]
  rfl

/-! ### Assembling the round trip -/

theorem cellChars_ascii (c : Cell) : ∀ x ∈ cellChars c, x.toNat < 256 := by
  cases c with
  | none => decide
  | some p => cases p <;> decide

theorem joinCells_ascii (cs : List Cell) :
    ∀ x ∈ joinCells cs, x.toNat < 256 := by
  induction cs with
  | nil => intro x hx; simp [joinCells] at hx
  | cons c cs ih =>
    cases cs with
    | nil => simpa [joinCells] using cellChars_ascii c
    | cons c2 cs2 =>
      intro x hx
      simp only [joinCells, List.mem_append, List.mem_cons] at hx
      rcases hx with h | h | h
      · exact cellChars_ascii c x h
      · subst h; decide
      · exact ih x h

theorem boolChars_ascii (b : Bool) : ∀ x ∈ boolChars b, x.toNat < 256 := by
  cases b <;> decide

theorem diffChars_ascii (d : Difficulty) :
    ∀ x ∈ diffChars d, x.toNat < 256 := by
  cases d <;> decide

theorem playerChar_ascii (p : Player) : (playerChar p).toNat < 256 := by
  cases p <;> decide

/-- Characters drawn from two ASCII lists stay ASCII. -/
theorem ascii_append {l1 l2 : List Char}
    (h1 : ∀ x ∈ l1, x.toNat < 256) (h2 : ∀ x ∈ l2, x.toNat < 256) :
    ∀ x ∈ l1 ++ l2, x.toNat < 256 := by
  intro x hx
  rcases List.mem_append.mp hx with h | h
  · exact h1 x h
  · exact h2 x h

/-- Every character of the emitted JSON is ASCII, so its UTF-8 byte is its
character code and is below 256. -/
theorem jsonOfState_ascii (st : GameState) :
    ∀ x ∈ jsonOfState st, x.toNat < 256 := by
  unfold jsonOfState
  repeat' apply ascii_append
  all_goals
    first
      | decide
      | exact joinCells_ascii st.board
      | exact boolChars_ascii st.isGameOver
      | exact diffChars_ascii st.difficulty
      | (intro x hx
         rw [List.mem_singleton] at hx
         subst hx
         exact playerChar_ascii st.currentPlayer)

theorem chars_bytes_chars (l : List Char) :
    (l.map Char.toNat).map Char.ofNat = l := by
  rw [List.map_map]
  simp [Function.comp_def, Char.ofNat_toNat]

theorem cellChars_length (c : Cell) : 3 ≤ (cellChars c).length := by
  cases c with
  | none => decide
  | some p => cases p <;> decide

theorem joinCells_length (cs : List Cell) :
    cs.length ≤ (joinCells cs).length := by
  induction cs with
  | nil => simp [joinCells]
  | cons c cs ih =>
    cases cs with
    | nil =>
      have := cellChars_length c
      simp only [joinCells, List.length_cons, List.length_nil]
      omega
    | cons c2 cs2 =>
      have h1 := cellChars_length c
      simp only [joinCells, List.length_append, List.length_cons] at *
      omega

theorem jsonOfState_length (st : GameState) :
    st.board.length + 5 ≤ (jsonOfState st).length := by
  have hj := joinCells_length st.board
  unfold jsonOfState
  simp only [List.length_append, List.length_cons, List.length_singleton,
    List.length_nil]
  have hb : 5 ≤ boardKey.length := by decide
  omega

theorem jsonParse_state (st : GameState) :
    jsonParse (jsonOfState st) = some (stateJson st) := by
  unfold jsonParse
  rw [parseVal_state st _ (by have := jsonOfState_length st; omega)]

theorem readCell_cellJson (c : Cell) : readCell (cellJson c) = some c := by
  cases c with
  | none => rfl
  | some p => cases p <;> rfl

theorem readCells_map (cs : List Cell) :
    readCells (cs.map cellJson) = some cs := by
  induction cs with
  | nil => rfl
  | cons c cs ih =>
    simp only [List.map_cons, readCells, readCell_cellJson, ih]

theorem readPlayer_char (p : Player) :
    readPlayer (Json.str [playerChar p]) = some p := by
  cases p <;> rfl

theorem readDifficulty_chars (d : Difficulty) :
    readDifficulty (Json.str (diffChars d)) = some d := by
  cases d <;> rfl

theorem readState_stateJson (st : GameState) :
    readState (stateJson st) = some st := by
  obtain ⟨b, p, go, d⟩ := st
  show (match readCells (b.map cellJson),
      readPlayer (Json.str [playerChar p]),
      readDifficulty (Json.str (diffChars d)) with
    | some bb, some pp, some dd => some (GameState.mk bb pp go dd)
    | _, _, _ => none) = some (GameState.mk b p go d)
  rw [readCells_map, readPlayer_char, readDifficulty_chars]

/-- The raw decode of an encoded state recovers exactly the JSON value of
the state: `JSON.parse` undoes the base64 + stringify transport, and the
`difficulty: decoded.difficulty || 'medium'` rebuild leaves the (present,
truthy) `difficulty` entry in place. -/
theorem decodeStateJs_encodeState (st : GameState) :
    decodeStateJs (encodeState st) = Except.ok (stateJson st) := by
  unfold decodeStateJs encodeState
  rw [base64_roundtrip _ (by
    intro x hx
    rw [List.mem_map] at hx
    obtain ⟨c, hc, rfl⟩ := hx
    exact jsonOfState_ascii st c hc)]
  rw [chars_bytes_chars, jsonParse_state]
  obtain ⟨b, p, go, d⟩ := st
  cases d <;> rfl

/-- **C1.** Codec round-trip: for every valid `GameState` (a 9-cell board
of `'O'`/`'X'`/`null` cells, a `currentPlayer`, an `isGameOver` flag and, in
this variant, a `difficulty` field), decoding the encoded state recovers a
state equal to the original in every observable field: the raw decoded
object is exactly the JSON value of the state, and reading its `board`,
`currentPlayer`, `isGameOver` and `difficulty` fields back yields the
original `GameState`. -/
theorem decodeState_encodeState (st : GameState)
    (_h9 : st.board.length = 9) :
    decodeState (encodeState st) = some st := by
  unfold decodeState
  rw [decodeStateJs_encodeState st]
  exact readState_stateJson st

/-- Witness for C1 on a concrete mid-game state. -/
theorem decodeState_encodeState_witness :
    (GameState.mk [some Player.O, none, none, none, some Player.X, none,
        none, none, none] Player.O false Difficulty.medium).board.length = 9
    ∧ decodeState (encodeState (GameState.mk
        [some Player.O, none, none, none, some Player.X, none, none, none,
         none] Player.O false Difficulty.medium))
      = some (GameState.mk [some Player.O, none, none, none, some Player.X,
          none, none, none, none] Player.O false Difficulty.medium) :=
  ⟨rfl,
   decodeState_encodeState (GameState.mk
     [some Player.O, none, none, none, some Player.X, none, none, none,
      none] Player.O false Difficulty.medium) rfl⟩

/-! ### The `/game` route on raw tokens (claim C10) -/

/-- The fresh state of line 1308: all cells empty, `'O'` to move, not over,
difficulty `easy`. -/
def freshState : GameState :=
  GameState.mk (List.replicate 9 none) Player.O false Difficulty.easy

/-- The JSON value of the fresh state. -/
def freshJson : Json := stateJson freshState

/-- The body of the `try` block after `decodeState` succeeded (lines
1320-1365), on the raw decoded value, tracking JavaScript exceptions:
reading `state.board[move]` throws (`Except.error`) when `state.board` is
`undefined` (absent field) or `null`, and property access on a non-object
state throws the same way; when `board` is an array and the whole state
reads back as a well-typed `GameState`, the typed step `gameStep` runs and
its result is re-embedded; a `board` of primitive shape indexes to
`undefined`, fails the `=== null` test without throwing, and leaves the
state unchanged on a rejection path.  (An array `board` with malformed
sibling fields also proceeds without throwing; the model returns the state
unchanged there — a case no theorem below evaluates.) -/
def movePhaseEx (rand : Rand) (st : Json) (move : Nat) : Except Unit Json :=
  match st with
  | Json.obj ms =>
    (match jsLookup ms boardKey with
     | none => Except.error ()
     | some Json.null => Except.error ()
     | some (Json.arr _) =>
       (match readState st with
        | some gs => Except.ok (stateJson (gameStep rand gs move).1)
        | none => Except.ok st)
     | some _ => Except.ok st)
  | _ => Except.error ()

/-- Lines 1377-1380, outside the `try`/`catch`: `state.board.reduce(...)`
collects the indices of empty cells — and throws an uncaught `TypeError`
(`Except.error`) when `state.board` is not an array. -/
def availableMovesPhase (st : Json) : Except Unit (List Nat) :=
  match st with
  | Json.obj ms =>
    (match jsLookup ms boardKey with
     | some (Json.arr cells) =>
       Except.ok ((List.range cells.length).filter fun i =>
         match cells.get? i with
         | some Json.null => true
         | _ => false)
     | _ => Except.error ())
  | _ => Except.error ()

/-- One full `/game` move interaction on an encoded token (lines
1308-1380): the fresh state is prepared; the `try` block decodes the token
and processes the move, any exception being caught with the state keeping
the value it had when the exception was raised (the fresh state if
`decodeState` itself threw, the decoded state otherwise); after the
`catch`, the route unconditionally computes the available moves from
`state.board` — outside any handler, so a failure there crashes the whole
interaction (`Except.error`). -/
def routeStep (rand : Rand) (tok : List Char) (move : Nat) :
    Except Unit (Json × List Nat) :=
  let afterTry : Json :=
    match decodeStateJs tok with
    | Except.error _ => freshJson
    | Except.ok s0 =>
      match movePhaseEx rand s0 move with
      | Except.error _ => s0
      | Except.ok s1 => s1
  match availableMovesPhase afterTry with
  | Except.error _ => Except.error ()
  | Except.ok moves => Except.ok (afterTry, moves)

/-- **C10.** The token `"e30="` is the base64 encoding of the two-byte
text `{}`: a string that is not a valid encoded `GameState`, yet decodes
as JSON without throwing.  `decodeState` then returns the object
`{difficulty: 'medium'}` with no `board`; inside the `try` block the read
`state.board[move]` throws and is caught, but the junk object is kept as
the state, and the post-`catch` `state.board.reduce` computation throws an
uncaught `TypeError`: the interaction crashes instead of falling back to a
fresh empty game, for every draw record.  (A token whose text is not JSON
at all is recovered as the claim states; this input refutes the
universally quantified claim.) -/
theorem routeStep_crash_on_boardless_token (rand : Rand) :
    decodeStateJs ['e', '3', '0', '=']
        = Except.ok (Json.obj [(diffKey, Json.str medChars)])
      ∧ routeStep rand ['e', '3', '0', '='] 0 = Except.error () :=
  ⟨rfl, rfl⟩

end PodPlay
